import Mathlib

set_option maxHeartbeats 1000000

/-!
Shallow embedding of the gradcafe_data repository: the Collector
(`fetch_data.py`: `parse_stats`, `scrape_gradcafe_page`, `scrape_all_pages`,
`process_data`) and the Analyzer (`analyze_gradcafe.py`:
`analyze_yale_polisci`'s row filter).

Python floats are modelled as rationals, missing values (`None`/`NaN`) as
`Option`, and the regular-expression searches of `parse_stats` as an explicit
leftmost-match scanner over character lists that returns the captured digit
string; `float()`/`int()` conversion of the capture is a separate step, as in
the source.
-/

/-- ASCII whitespace recognized by the regex class `\s` and by `str.strip`. -/
def isPySpace (c : Char) : Bool :=
  c == ' ' || c == '\t' || c == '\n' || c == '\r' || c == '\x0b' || c == '\x0c'

/-- The character class `[:\s]` used between a label and its value in
`parse_stats`'s regexes. -/
def isSepChar (c : Char) : Bool := c == ':' || isPySpace c

/-- ASCII decimal digit, modelling the regex class `\d`. -/
def isDigitChar (c : Char) : Bool := 48 ≤ c.toNat && c.toNat ≤ 57

/-- Numeric value of a digit string, most significant first: `int()` of the
capture of `\d+`. -/
def digitsVal (ds : List Char) : Nat := ds.foldl (fun a c => 10 * a + (c.toNat - 48)) 0

/-- `float()` of the capture of `\d\.\d+`: integer digit `c`, fraction `ds`. -/
def decVal (c : Char) (ds : List Char) : ℚ :=
  ((c.toNat - 48 : ℕ) : ℚ) + (digitsVal ds : ℚ) / (10 : ℚ) ^ ds.length

/-- Caseless match of the literal label `L` at the head of the input
(`re.IGNORECASE`); returns the rest of the input on success. -/
def matchLabel : List Char → List Char → Option (List Char)
  | [], cs => some cs
  | _ :: _, [] => none
  | l :: ls, c :: cs => if c.toLower = l.toLower then matchLabel ls cs else none

/-- Match `[:\s]+(\d\.\d+)` at the head of the input, returning the captured
integer digit and fraction digits (used for GPA and GRE Analytical Writing). -/
def matchDecCap (cs : List Char) : Option (Char × List Char) :=
  let seps := cs.takeWhile isSepChar
  let r := cs.dropWhile isSepChar
  if seps = [] then none
  else
    match r with
    | c :: '.' :: rest =>
      if isDigitChar c then
        let ds := rest.takeWhile isDigitChar
        if ds = [] then none else some (c, ds)
      else none
    | _ => none

/-- Match `[:\s]+(\d+)` at the head of the input, returning the captured digit
string (used for GRE Verbal and GRE Quantitative). -/
def matchIntCap (cs : List Char) : Option (List Char) :=
  let seps := cs.takeWhile isSepChar
  let r := cs.dropWhile isSepChar
  if seps = [] then none
  else
    let ds := r.takeWhile isDigitChar
    if ds = [] then none else some ds

/-- `re.search`: try `label` followed by `m` at each start position, leftmost
match first. -/
def searchWith {α : Type} (L : List Char) (m : List Char → Option α) : List Char → Option α
  | [] => none
  | c :: cs =>
    match matchLabel L (c :: cs) with
    | some rest =>
      match m rest with
      | some v => some v
      | none => searchWith L m cs
    | none => searchWith L m cs

/-- Whether the caseless label `L` occurs anywhere in the input. -/
def labelOccursIn (L : List Char) : List Char → Bool
  | [] => false
  | c :: cs => (matchLabel L (c :: cs)).isSome || labelOccursIn L cs

def gpaLabel : List Char := ['G', 'P', 'A']
def greVerbalLabel : List Char := "GRE Verbal".data
def greQuantLabel : List Char := "GRE Quantitative".data
def greWritingLabel : List Char := "GRE Analytical Writing".data

/-- Result of `parse_stats`: four independently optional numeric fields. -/
structure ParsedStats where
  gpa : Option ℚ
  gre_verbal : Option ℤ
  gre_quant : Option ℤ
  gre_writing : Option ℚ
deriving DecidableEq, Repr

/-- `parse_stats(stats_raw)` from fetch_data.py lines 119-162: four
independent case-insensitive regex searches over the raw stats text, each
converting its captured group with `float()`/`int()` when it matches. -/
def parse_stats (stats_raw : String) : ParsedStats :=
  { gpa := (searchWith gpaLabel matchDecCap stats_raw.data).map (fun p => decVal p.1 p.2)
    gre_verbal := (searchWith greVerbalLabel matchIntCap stats_raw.data).map
      (fun ds => ((digitsVal ds : ℕ) : ℤ))
    gre_quant := (searchWith greQuantLabel matchIntCap stats_raw.data).map
      (fun ds => ((digitsVal ds : ℕ) : ℤ))
    gre_writing := (searchWith greWritingLabel matchDecCap stats_raw.data).map
      (fun p => decVal p.1 p.2) }

example : searchWith gpaLabel matchDecCap "GPA: 3.8, GRE Verbal: 160".data =
    some ('3', ['8']) := by decide

example : searchWith greVerbalLabel matchIntCap "GPA: 3.8, GRE Verbal: 160".data =
    some ['1', '6', '0'] := by decide

example : decVal '3' ['8', '0'] = 19 / 5 := by
  show ((3 : ℕ) : ℚ) + ((80 : ℕ) : ℚ) / (10 : ℚ) ^ 2 = 19 / 5
  norm_num

example : (parse_stats "no numbers here") = ⟨none, none, none, none⟩ := rfl

/-! ### Row extraction and filtering (`scrape_gradcafe_page`) -/

/-- `a` occurs at the head of `b` (exact, case-sensitive). -/
def listStartsWith : List Char → List Char → Bool
  | [], _ => true
  | _ :: _, [] => false
  | a :: as, b :: bs => a == b && listStartsWith as bs

/-- `needle` occurs as a contiguous sublist of `hay`: Python's `in` on
strings. -/
def containsSub (needle : List Char) : List Char → Bool
  | [] => needle.isEmpty
  | c :: cs => listStartsWith needle (c :: cs) || containsSub needle cs

/-- Python `needle in hay` for strings. -/
def strContains (hay needle : String) : Bool := containsSub needle.data hay.data

/-- Python `str.strip()` (ASCII whitespace). -/
def pstrip (s : String) : String :=
  ⟨((s.data.dropWhile isPySpace).reverse.dropWhile isPySpace).reverse⟩

/-- One Collector row (a "Scraped Record"): the dict appended to `entries`
in `scrape_gradcafe_page`, with the numeric columns already coerced to float
as `pd.to_numeric` later makes them. -/
structure Entry where
  institution : String
  program : String
  degree : String
  season : String
  decision : String
  gpa : Option ℚ
  gre_verbal : Option ℚ
  gre_quant : Option ℚ
  gre_writing : Option ℚ
  stats_raw : String
deriving DecidableEq, Repr

/-- The float an integer GRE score becomes once `pd.to_numeric` touches the
column. -/
def intToRat (n : ℤ) : ℚ := (n : ℚ)

/-- The per-row body of `scrape_gradcafe_page`'s `for row in rows` loop
(fetch_data.py lines 188-222): skip rows with fewer than 7 cells, strip the
text of the positional cells, keep the row only if institution/program/degree
contain the three fixed target substrings, and parse the stats cell. -/
def scrapeRow (cells : List String) : Option Entry :=
  if cells.length < 7 then none
  else
    let institution := pstrip (cells.getD 0 "")
    let program := pstrip (cells.getD 1 "")
    let degree := pstrip (cells.getD 2 "")
    let season := pstrip (cells.getD 3 "")
    let decision := pstrip (cells.getD 4 "")
    let stats_raw := if 6 < cells.length then pstrip (cells.getD 6 "") else ""
    if strContains institution "Yale" && strContains program "Political Science" &&
        strContains degree "PhD" then
      let stats := parse_stats stats_raw
      some { institution := institution, program := program, degree := degree,
             season := season, decision := decision,
             gpa := stats.gpa,
             gre_verbal := stats.gre_verbal.map intToRat,
             gre_quant := stats.gre_quant.map intToRat,
             gre_writing := stats.gre_writing,
             stats_raw := stats_raw }
    else none

/-- What the page markup offers: a results table (list of `tr` rows, header
first, each row its `td` cell texts), no table (`NoSuchElementException`), or
any other exception while processing the page. -/
inductive PageContent where
  | table (rows : List (List String))
  | noTable
  | error
deriving DecidableEq

/-- `scrape_gradcafe_page` (fetch_data.py lines 164-243): skip the header row,
extract each qualifying row; a missing table or an exception is caught and
yields zero entries. -/
def scrape_gradcafe_page : PageContent → List Entry
  | .table rows => (rows.drop 1).filterMap scrapeRow
  | .noTable => []
  | .error => []

/-! ### Pagination loop (`scrape_all_pages`) -/

/-- The `for page in range(start_page, end_page + 1)` loop of
`scrape_all_pages` (fetch_data.py lines 257-266), recursing on the number of
remaining page numbers: fetch the page, stop (`break`) when it yields zero
rows, otherwise accumulate and continue. -/
def scrapeFrom {α : Type} (fetch : ℕ → List α) (page : ℕ) : ℕ → List α
  | 0 => []
  | fuel + 1 =>
    let results := fetch page
    if results.isEmpty then [] else results ++ scrapeFrom fetch (page + 1) fuel

/-- `scrape_all_pages` (fetch_data.py lines 245-268): iterate pages
`start_page .. end_page` in increasing order, stopping at the first page that
yields zero extracted rows. -/
def scrape_all_pages {α : Type} (fetch : ℕ → List α) (start_page end_page : ℕ) : List α :=
  scrapeFrom fetch start_page (end_page + 1 - start_page)

/-- The pages actually requested by the loop of `scrape_all_pages`, in request
order: each iteration requests its page before deciding whether to stop. -/
def requestedFrom {α : Type} (fetch : ℕ → List α) (page : ℕ) : ℕ → List ℕ
  | 0 => []
  | fuel + 1 =>
    page :: (if (fetch page).isEmpty then [] else requestedFrom fetch (page + 1) fuel)

/-- The pages requested by `scrape_all_pages fetch start_page end_page`. -/
def requestedPages {α : Type} (fetch : ℕ → List α) (start_page end_page : ℕ) : List ℕ :=
  requestedFrom fetch start_page (end_page + 1 - start_page)

/-! ### Post-collection normalization (`process_data`) -/

/-- The literal `decision_mapping` dict (fetch_data.py lines 285-291). -/
def decision_mapping : List (String × String) :=
  [("Accepted", "Accept"), ("Rejected", "Reject"), ("Wait Listed", "Waitlist"),
   ("Interview", "Other"), ("Other", "Other")]

/-- `df['decision'].map(decision_mapping).fillna('Unknown')` applied to one
raw label: look the label up in the fixed table, defaulting to `"Unknown"`. -/
def mapDecision (s : String) : String :=
  match decision_mapping.lookup s with
  | some c => c
  | none => "Unknown"

/-- `Series.mean()`: arithmetic mean of the non-missing values, `NaN` when
there are none. -/
def colMean (xs : List (Option ℚ)) : Option ℚ :=
  let vs := xs.filterMap id
  if vs = [] then none else some (vs.sum / vs.length)

/-- `Series.median()`: sort the non-missing values; middle element for odd
count, average of the two middle elements for even count; `NaN` when there are
none. -/
def colMedian (xs : List (Option ℚ)) : Option ℚ :=
  let vs := (xs.filterMap id).mergeSort (fun a b => a ≤ b)
  if vs = [] then none
  else if vs.length % 2 = 1 then some (vs.getD (vs.length / 2) 0)
  else some ((vs.getD (vs.length / 2 - 1) 0 + vs.getD (vs.length / 2) 0) / 2)

/-- `Series.fillna(v)` applied to one cell: keep a present value, replace a
missing one by `v` (which may itself be missing). -/
def fillOpt : Option ℚ → Option ℚ → Option ℚ
  | some v, _ => some v
  | none, d => d

/-- `process_data(df)` (fetch_data.py lines 270-313): `None` for an empty
table; otherwise map the decision labels through the fixed table (unmapped
ones become `"Unknown"`), coerce the numeric columns (`pd.to_numeric` is the
identity here since every stored value is already numeric or missing), fill
missing GPA with the column mean, then fill each missing GRE subscore with
its column median, each statistic computed over the table at that point. -/
def process_data (df : List Entry) : Option (List Entry) :=
  if df = [] then none
  else
    let df1 := df.map (fun r => { r with decision := mapDecision r.decision })
    let mean_gpa := colMean (df1.map (fun r => r.gpa))
    let df2 := df1.map (fun r => { r with gpa := fillOpt r.gpa mean_gpa })
    let median_v := colMedian (df2.map (fun r => r.gre_verbal))
    let median_q := colMedian (df2.map (fun r => r.gre_quant))
    let median_w := colMedian (df2.map (fun r => r.gre_writing))
    let df3 := df2.map (fun r => { r with gre_verbal := fillOpt r.gre_verbal median_v })
    let df4 := df3.map (fun r => { r with gre_quant := fillOpt r.gre_quant median_q })
    let df5 := df4.map (fun r => { r with gre_writing := fillOpt r.gre_writing median_w })
    some df5

/-! ### Analyzer row filter (`analyze_yale_polisci`) -/

/-- One Analyzer input row (analyze_gradcafe.py): the external bulk dataset's
columns; the name columns may be missing (`NaN`). -/
structure ARow where
  uni_name : Option String
  major : Option String
  decision : String
  ugrad_gpa : Option ℚ
  gre_verbal : Option ℚ
  gre_quant : Option ℚ
  gre_writing : Option ℚ
  is_new_gre : Option ℚ
deriving DecidableEq

/-- Lowercase a character list (ASCII). -/
def toLowerList (cs : List Char) : List Char := cs.map Char.toLower

/-- `Series.str.contains(needle, case=False, na=False)` applied to one cell:
case-insensitive substring test, `False` on a missing value. -/
def strContainsCI : Option String → String → Bool
  | none, _ => false
  | some s, needle => containsSub (toLowerList needle.data) (toLowerList s.data)

/-- The row filter of `analyze_yale_polisci` (analyze_gradcafe.py lines
22-26): keep the rows whose `uni_name` contains `'Yale'` and whose `major`
contains `'Political Science'`, case-insensitively. -/
def analyze_yale_polisci (df : List ARow) : List ARow :=
  df.filter (fun r =>
    strContainsCI r.uni_name "Yale" && strContainsCI r.major "Political Science")

example : scrapeRow ["Yale University", "Political Science", "PhD", "F25", "Accepted", "",
    "GPA: 3.80"] = some ⟨"Yale University", "Political Science", "PhD", "F25", "Accepted",
      some (decVal '3' ['8', '0']), none, none, none, "GPA: 3.80"⟩ := rfl

example : scrapeRow ["Harvard", "Political Science", "PhD", "F25", "Accepted", "", ""] =
    none := rfl

example : scrapeRow ["Yale University", "Political Science", "PhD"] = none := rfl

example : mapDecision "Accepted" = "Accept" := rfl

example : mapDecision "Accept" = "Unknown" := rfl

/-! ### Helper lemmas -/

/-- `listStartsWith` tests exactly for an append decomposition. -/
lemma listStartsWith_iff (n : List Char) : ∀ h : List Char,
    listStartsWith n h = true ↔ ∃ t, h = n ++ t := by
  induction n with
  | nil => intro h; simp [listStartsWith]
  | cons a as ih =>
    intro h
    cases h with
    | nil => simp [listStartsWith]
    | cons b bs =>
      simp only [listStartsWith, Bool.and_eq_true, beq_iff_eq, ih bs, List.cons_append,
        List.cons.injEq]
      constructor
      · rintro ⟨rfl, t, rfl⟩; exact ⟨t, rfl, rfl⟩
      · rintro ⟨t, rfl, rfl⟩; exact ⟨rfl, t, rfl⟩

/-- Python's substring test holds exactly when the needle occurs contiguously
in the haystack. -/
lemma containsSub_iff (n : List Char) : ∀ h : List Char,
    containsSub n h = true ↔ ∃ l t, h = l ++ n ++ t := by
  intro h
  induction h with
  | nil =>
    simp only [containsSub, List.isEmpty_iff]
    constructor
    · rintro rfl; exact ⟨[], [], rfl⟩
    · rintro ⟨l, t, ht⟩
      have h1 := List.append_eq_nil.mp ht.symm
      exact (List.append_eq_nil.mp h1.1).2
  | cons c cs ih =>
    simp only [containsSub, Bool.or_eq_true, listStartsWith_iff, ih]
    constructor
    · rintro (⟨t, ht⟩ | ⟨l, t, rfl⟩)
      · exact ⟨[], t, by simpa using ht⟩
      · exact ⟨c :: l, t, rfl⟩
    · rintro ⟨l, t, ht⟩
      cases l with
      | nil => exact Or.inl ⟨t, by simpa using ht⟩
      | cons x xs =>
        refine Or.inr ?_
        injection ht with h1 h2
        exact ⟨xs, t, h2⟩

/-- A digit (regex `\d`) is never a separator (regex `[:\s]`). -/
lemma not_sep_of_digit (c : Char) (h : isDigitChar c = true) : isSepChar c = false := by
  simp only [isDigitChar, Bool.and_eq_true, decide_eq_true_eq] at h
  have e1 : (c == ':') = false := beq_eq_false_iff_ne.mpr (fun he => by
    rw [he, show (':').toNat = 58 from rfl] at h; omega)
  have e2 : (c == ' ') = false := beq_eq_false_iff_ne.mpr (fun he => by
    rw [he, show (' ').toNat = 32 from rfl] at h; omega)
  have e3 : (c == '\t') = false := beq_eq_false_iff_ne.mpr (fun he => by
    rw [he, show ('\t').toNat = 9 from rfl] at h; omega)
  have e4 : (c == '\n') = false := beq_eq_false_iff_ne.mpr (fun he => by
    rw [he, show ('\n').toNat = 10 from rfl] at h; omega)
  have e5 : (c == '\r') = false := beq_eq_false_iff_ne.mpr (fun he => by
    rw [he, show ('\r').toNat = 13 from rfl] at h; omega)
  have e6 : (c == '\x0b') = false := beq_eq_false_iff_ne.mpr (fun he => by
    rw [he, show ('\x0b').toNat = 11 from rfl] at h; omega)
  have e7 : (c == '\x0c') = false := beq_eq_false_iff_ne.mpr (fun he => by
    rw [he, show ('\x0c').toNat = 12 from rfl] at h; omega)
  simp [isSepChar, isPySpace, e1, e2, e3, e4, e5, e6, e7]

/-- Splitting `takeWhile`/`dropWhile` over an append whose left part all
satisfies the predicate and whose right part starts with a failure. -/
lemma spanAll {p : Char → Bool} : ∀ (l t : List Char),
    (∀ c ∈ l, p c = true) → (∀ c, t.head? = some c → p c = false) →
    (l ++ t).takeWhile p = l ∧ (l ++ t).dropWhile p = t := by
  intro l
  induction l with
  | nil =>
    intro t _ ht
    cases t with
    | nil => exact ⟨rfl, rfl⟩
    | cons c cs =>
      have hc := ht c rfl
      constructor <;> simp [List.takeWhile_cons, List.dropWhile_cons, hc]
  | cons a l ih =>
    intro t hl ht
    have ha : p a = true := hl a (List.mem_cons_self a l)
    have ihh := ih t (fun c hc => hl c (List.mem_cons_of_mem a hc)) ht
    constructor <;>
      simp [List.takeWhile_cons, List.dropWhile_cons, ha, ihh.1, ihh.2]

/-- The caseless label matches against itself. -/
lemma matchLabel_self : ∀ (L rest : List Char), matchLabel L (L ++ rest) = some rest := by
  intro L
  induction L with
  | nil => intro rest; rfl
  | cons c cs ih => intro rest; simp [matchLabel, ih]

/-- The leftmost-match scan passes over a prefix at none of whose positions
the label matches. -/
lemma searchWith_skip {α : Type} (L : List Char) (m : List Char → Option α) :
    ∀ (pre rest : List Char),
      (∀ n, n < pre.length → matchLabel L (pre.drop n ++ rest) = none) →
      searchWith L m (pre ++ rest) = searchWith L m rest := by
  intro pre
  induction pre with
  | nil => intro rest _; rfl
  | cons c pre ih =>
    intro rest h
    have h0 : matchLabel L (c :: (pre ++ rest)) = none := by
      have := h 0 (by simp)
      simpa using this
    rw [List.cons_append]
    rw [show searchWith L m (c :: (pre ++ rest)) = searchWith L m (pre ++ rest) from by
      simp [searchWith, h0]]
    exact ih rest (fun n hn => by
      have := h (n + 1) (by simpa using Nat.succ_lt_succ hn)
      simpa using this)

/-- At a position where the label itself starts and the value matcher
succeeds on the remainder, the scan returns that value. -/
lemma searchWith_at_label {α : Type} (L : List Char) (hL : L ≠ [])
    (m : List Char → Option α) (rest : List Char) (v : α) (hm : m rest = some v) :
    searchWith L m (L ++ rest) = some v := by
  obtain ⟨c, L', rfl⟩ := List.exists_cons_of_ne_nil hL
  have hself := matchLabel_self (c :: L') rest
  rw [List.cons_append] at hself ⊢
  simp [searchWith, hself, hm]

/-- If the label occurs nowhere in the input, the scan fails. -/
lemma searchWith_none_of_not_occurs {α : Type} (L : List Char) (m : List Char → Option α) :
    ∀ cs, labelOccursIn L cs = false → searchWith L m cs = none := by
  intro cs
  induction cs with
  | nil => intro _; rfl
  | cons c cs ih =>
    intro h
    simp only [labelOccursIn, Bool.or_eq_false_iff] at h
    have hm : matchLabel L (c :: cs) = none := by
      rcases hml : matchLabel L (c :: cs) with _ | r
      · rfl
      · rw [hml] at h; simp at h
    simp [searchWith, hm, ih h.2]

/-- `[:\s]+(\d\.\d+)` matched right after a label followed by `": "`. -/
lemma matchDecCap_exact (d0 : Char) (frac post : List Char)
    (hd : isDigitChar d0 = true) (hf : frac ≠ [])
    (hfall : ∀ c ∈ frac, isDigitChar c = true)
    (hpost : ∀ c, post.head? = some c → isDigitChar c = false) :
    matchDecCap (':' :: ' ' :: d0 :: '.' :: (frac ++ post)) = some (d0, frac) := by
  have h1 : isSepChar d0 = false := not_sep_of_digit d0 hd
  have htw : (frac ++ post).takeWhile isDigitChar = frac := (spanAll frac post hfall hpost).1
  simp +decide [matchDecCap, List.takeWhile_cons, List.dropWhile_cons, h1, hd, htw, hf]

/-- `[:\s]+(\d+)` matched right after a label followed by `": "`. -/
lemma matchIntCap_exact (ds post : List Char) (hne : ds ≠ [])
    (hall : ∀ c ∈ ds, isDigitChar c = true)
    (hpost : ∀ c, post.head? = some c → isDigitChar c = false) :
    matchIntCap (':' :: ' ' :: (ds ++ post)) = some ds := by
  obtain ⟨d, ds', rfl⟩ := List.exists_cons_of_ne_nil hne
  have hd : isDigitChar d = true := hall d (List.mem_cons_self d ds')
  have h1 : isSepChar d = false := not_sep_of_digit d hd
  have htw : ((d :: ds') ++ post).takeWhile isDigitChar = d :: ds' :=
    (spanAll (d :: ds') post hall hpost).1
  rw [List.cons_append] at htw
  simp +decide [matchIntCap, List.takeWhile_cons, List.dropWhile_cons, h1, htw]

/-- Behaviour of the pagination loop body when pages `s .. s+n-1` are nonempty
and page `s+n` is empty: the result is the concatenation of the nonempty
pages, and exactly pages `s .. s+n` are requested. -/
lemma scrapeFrom_spec {α : Type} (fetch : ℕ → List α) :
    ∀ (n s fuel : ℕ), n < fuel →
      (∀ p, s ≤ p → p < s + n → fetch p ≠ []) →
      fetch (s + n) = [] →
      scrapeFrom fetch s fuel = ((List.range' s n).map fetch).flatten ∧
      requestedFrom fetch s fuel = List.range' s (n + 1) := by
  intro n
  induction n with
  | zero =>
    intro s fuel hfuel _ hempty
    obtain ⟨f, rfl⟩ : ∃ f, fuel = f + 1 := ⟨fuel - 1, by omega⟩
    simp only [Nat.add_zero] at hempty
    refine ⟨by simp [scrapeFrom, hempty], ?_⟩
    simp [requestedFrom, hempty, List.range'_one]
  | succ n ih =>
    intro s fuel hfuel hfull hempty
    obtain ⟨f, rfl⟩ : ∃ f, fuel = f + 1 := ⟨fuel - 1, by omega⟩
    have hs : fetch s ≠ [] := hfull s le_rfl (by omega)
    have ihh := ih (s + 1) f (by omega)
      (fun p h1 h2 => hfull p (by omega) (by omega))
      (by rw [show s + 1 + n = s + (n + 1) by omega]; exact hempty)
    have hsb : (fetch s).isEmpty = false := by simp [List.isEmpty_iff, hs]
    constructor
    · have e1 : scrapeFrom fetch s (f + 1) = fetch s ++ scrapeFrom fetch (s + 1) f := by
        simp [scrapeFrom, hsb]
      rw [e1, ihh.1, List.range'_succ]
      simp
    · have e2 : requestedFrom fetch s (f + 1) = s :: requestedFrom fetch (s + 1) f := by
        simp [requestedFrom, hsb]
      rw [e2, ihh.2]
      simp [List.range'_succ]

/-- `scrape_all_pages` under the same hypotheses, phrased with a stopping page
`k` between the start page and the end bound. -/
lemma scrape_all_pages_spec {α : Type} (fetch : ℕ → List α) (s e k : ℕ)
    (hsk : s ≤ k) (hke : k ≤ e)
    (hfull : ∀ p, s ≤ p → p < k → fetch p ≠ [])
    (hempty : fetch k = []) :
    scrape_all_pages fetch s e = ((List.range' s (k - s)).map fetch).flatten ∧
    requestedPages fetch s e = List.range' s (k - s + 1) := by
  have h := scrapeFrom_spec fetch (k - s) s (e + 1 - s) (by omega)
    (fun p h1 h2 => hfull p h1 (by omega))
    (by rw [show s + (k - s) = k by omega]; exact hempty)
  exact h

/-- `process_data` on a nonempty table collapses to a single row map, with
each imputation statistic taken over the corresponding column of the input
table (the source computes each statistic from the table as it stands at that
line, but the earlier steps never touch the column the statistic reads). -/
lemma process_data_eq (df : List Entry) (h : df ≠ []) :
    process_data df = some (df.map (fun r =>
      { r with decision := mapDecision r.decision,
               gpa := fillOpt r.gpa (colMean (df.map (fun x => x.gpa))),
               gre_verbal := fillOpt r.gre_verbal (colMedian (df.map (fun x => x.gre_verbal))),
               gre_quant := fillOpt r.gre_quant (colMedian (df.map (fun x => x.gre_quant))),
               gre_writing := fillOpt r.gre_writing
                 (colMedian (df.map (fun x => x.gre_writing))) })) := by
  simp only [process_data, if_neg h, List.map_map]
  rfl

/-! ### C1: pagination stops at the first empty page -/

/-- C1: for every run of the pagination loop with start page `s` and end
bound `e`, if pages `s .. k-1` each yield at least one row and page `k ≤ e`
yields zero rows, the result is exactly the rows of pages `s .. k-1` in page
order, and the requested pages are exactly `s, s+1, ..., k` in increasing
order — no page after `k` is ever requested, whether or not `e` was
reached. -/
theorem scrape_all_pages_first_empty {α : Type} (fetch : ℕ → List α) (s e k : ℕ)
    (hsk : s ≤ k) (hke : k ≤ e)
    (hfull : ∀ p, s ≤ p → p < k → fetch p ≠ [])
    (hempty : fetch k = []) :
    scrape_all_pages fetch s e = ((List.range' s (k - s)).map fetch).flatten ∧
    requestedPages fetch s e = List.range' s (k - s + 1) :=
  scrape_all_pages_spec fetch s e k hsk hke hfull hempty

/-- Witness for C1 at a concrete run: pages 1 and 2 yield one row each,
page 3 is empty, the end bound is 5. -/
theorem scrape_all_pages_first_empty_witness :
    scrape_all_pages (fun p => if p < 3 then [p] else []) 1 5 = [1, 2] ∧
    requestedPages (fun p => if p < 3 then [p] else []) 1 5 = [1, 2, 3] := by
  have h := scrape_all_pages_first_empty (fun p => if p < 3 then [p] else []) 1 5 3
    (by omega) (by omega)
    (fun p h1 h2 => by simp [h2])
    (by simp)
  obtain ⟨h1, h2⟩ := h
  exact ⟨by rw [h1]; rfl, by rw [h2]; rfl⟩

/-! ### C9: an exception on a page is treated as zero rows and stops the loop -/

/-- C9: an exception while processing a page is caught and the page yields
zero entries; under the stopping rule the loop then stops at that page, so a
run whose page `k` raises an exception is observably identical to a run whose
page `k` genuinely has no results: both return the rows of pages `s .. k-1`
only (a truncated result set). -/
theorem error_page_same_as_end (pc₁ pc₂ : ℕ → PageContent) (s e k : ℕ)
    (hsk : s ≤ k) (hke : k ≤ e)
    (hagree : ∀ p, s ≤ p → p < k →
      pc₁ p = pc₂ p ∧ scrape_gradcafe_page (pc₁ p) ≠ [])
    (herr : pc₁ k = PageContent.error)
    (hend : scrape_gradcafe_page (pc₂ k) = []) :
    scrape_gradcafe_page (pc₁ k) = [] ∧
    scrape_all_pages (fun p => scrape_gradcafe_page (pc₁ p)) s e =
      scrape_all_pages (fun p => scrape_gradcafe_page (pc₂ p)) s e ∧
    scrape_all_pages (fun p => scrape_gradcafe_page (pc₁ p)) s e =
      ((List.range' s (k - s)).map (fun p => scrape_gradcafe_page (pc₁ p))).flatten := by
  have h1 : scrape_gradcafe_page (pc₁ k) = [] := by rw [herr]; rfl
  have ha := scrape_all_pages_spec (fun p => scrape_gradcafe_page (pc₁ p)) s e k hsk hke
    (fun p hp1 hp2 => (hagree p hp1 hp2).2) h1
  have hb := scrape_all_pages_spec (fun p => scrape_gradcafe_page (pc₂ p)) s e k hsk hke
    (fun p hp1 hp2 => by
      have hg := hagree p hp1 hp2
      simpa [← hg.1] using hg.2) hend
  refine ⟨h1, ?_, ha.1⟩
  rw [ha.1, hb.1]
  congr 1
  apply List.map_congr_left
  intro p hp
  rw [List.mem_range'_1] at hp
  rw [(hagree p hp.1 (by omega)).1]

/-- A page whose table holds one qualifying row (used by witnesses). -/
def wCells : List String :=
  ["Yale University", "Political Science", "PhD", "F25", "Accepted", "", ""]

/-- Witness for C9: pages up to 1 are good, page 2 raises in one world and is
genuinely empty in the other; both runs return just page 1's row. -/
theorem error_page_same_as_end_witness :
    scrape_gradcafe_page ((fun p => if p ≤ 1 then PageContent.table [[], wCells]
      else PageContent.error) 2) = [] ∧
    scrape_all_pages (fun p => scrape_gradcafe_page
      (if p ≤ 1 then PageContent.table [[], wCells] else PageContent.error)) 1 4 =
    scrape_all_pages (fun p => scrape_gradcafe_page
      (if p ≤ 1 then PageContent.table [[], wCells] else PageContent.table [[]])) 1 4 ∧
    scrape_all_pages (fun p => scrape_gradcafe_page
      (if p ≤ 1 then PageContent.table [[], wCells] else PageContent.error)) 1 4 =
      ((List.range' 1 (2 - 1)).map (fun p => scrape_gradcafe_page
        (if p ≤ 1 then PageContent.table [[], wCells] else PageContent.error))).flatten := by
  have h := error_page_same_as_end
    (fun p => if p ≤ 1 then PageContent.table [[], wCells] else PageContent.error)
    (fun p => if p ≤ 1 then PageContent.table [[], wCells] else PageContent.table [[]])
    1 4 2 (by omega) (by omega)
    (fun p h1 h2 => by
      have hp : p = 1 := by omega
      subst hp
      exact ⟨rfl, by decide⟩)
    (by rfl) (by rfl)
  exact h

/-! ### C4: decision normalization is total -/

/-- A label outside the mapping table's keys maps to `"Unknown"`. -/
lemma mapDecision_eq_unknown (s : String) (hs : s ∉ decision_mapping.map Prod.fst) :
    mapDecision s = "Unknown" := by
  simp only [decision_mapping, List.map, List.mem_cons, List.not_mem_nil, or_false,
    not_or] at hs
  obtain ⟨h1, h2, h3, h4, h5⟩ := hs
  have e1 : (s == "Accepted") = false := beq_eq_false_iff_ne.mpr h1
  have e2 : (s == "Rejected") = false := beq_eq_false_iff_ne.mpr h2
  have e3 : (s == "Wait Listed") = false := beq_eq_false_iff_ne.mpr h3
  have e4 : (s == "Interview") = false := beq_eq_false_iff_ne.mpr h4
  have e5 : (s == "Other") = false := beq_eq_false_iff_ne.mpr h5
  simp [mapDecision, decision_mapping, List.lookup, e1, e2, e3, e4, e5]

/-- `mapDecision` only ever produces one of the five canonical outputs. -/
lemma mapDecision_range (s : String) :
    mapDecision s = "Accept" ∨ mapDecision s = "Reject" ∨ mapDecision s = "Waitlist" ∨
    mapDecision s = "Other" ∨ mapDecision s = "Unknown" := by
  by_cases h1 : s = "Accepted"; · subst h1; exact Or.inl rfl
  by_cases h2 : s = "Rejected"; · subst h2; exact Or.inr (Or.inl rfl)
  by_cases h3 : s = "Wait Listed"; · subst h3; exact Or.inr (Or.inr (Or.inl rfl))
  by_cases h4 : s = "Interview"; · subst h4; exact Or.inr (Or.inr (Or.inr (Or.inl rfl)))
  by_cases h5 : s = "Other"; · subst h5; exact Or.inr (Or.inr (Or.inr (Or.inl rfl)))
  refine Or.inr (Or.inr (Or.inr (Or.inr ?_)))
  exact mapDecision_eq_unknown s (by simp [decision_mapping, h1, h2, h3, h4, h5])

/-- C4: decision normalization is a total pure function: each of the five
raw labels in the fixed table maps to its canonical category (one of four),
every other raw string maps to `"Unknown"`, and `process_data` rewrites every
row's decision through this function without dropping any row. -/
theorem decision_normalization_total :
    (mapDecision "Accepted" = "Accept" ∧ mapDecision "Rejected" = "Reject" ∧
     mapDecision "Wait Listed" = "Waitlist" ∧ mapDecision "Interview" = "Other" ∧
     mapDecision "Other" = "Other") ∧
    (∀ s : String, s ∉ decision_mapping.map Prod.fst → mapDecision s = "Unknown") ∧
    (∀ s : String, mapDecision s = "Accept" ∨ mapDecision s = "Reject" ∨
      mapDecision s = "Waitlist" ∨ mapDecision s = "Other" ∨ mapDecision s = "Unknown") ∧
    (∀ df : List Entry, df ≠ [] → ∃ out, process_data df = some out ∧
      out.length = df.length ∧
      ∀ (i : ℕ) (r : Entry), df[i]? = some r → ∃ rr, out[i]? = some rr ∧
        rr.decision = mapDecision r.decision) := by
  refine ⟨⟨rfl, rfl, rfl, rfl, rfl⟩, mapDecision_eq_unknown, mapDecision_range, ?_⟩
  intro df hdf
  refine ⟨_, process_data_eq df hdf, by simp, ?_⟩
  intro i r hr
  exact ⟨_, by rw [List.getElem?_map, hr]; rfl, rfl⟩

/-- Concrete row used by the C4 witness. -/
def c4Row : Entry :=
  ⟨"Yale University", "Political Science", "PhD", "F25", "Springtime",
   some 4, some 165, some 168, some 4, "raw"⟩

/-- Witness for C4: an unmapped label becomes `"Unknown"`, and a one-row
table keeps its row with the mapped decision. -/
theorem decision_normalization_total_witness :
    mapDecision "Springtime" = "Unknown" ∧
    (∃ out, process_data [c4Row] = some out ∧ out.length = [c4Row].length ∧
      ∀ (i : ℕ) (r : Entry), [c4Row][i]? = some r → ∃ rr, out[i]? = some rr ∧
        rr.decision = mapDecision r.decision) :=
  ⟨decision_normalization_total.2.1 "Springtime" (by decide),
   decision_normalization_total.2.2.2 [c4Row] (by simp)⟩

/-! ### C5: mean/median imputation over the whole collected table -/

/-- C5: normalization replaces each missing gpa by the mean of the gpa column
and each missing GRE subscore by the median of its column, each statistic
computed over the entire collected table, and leaves non-missing values
unchanged. -/
theorem process_data_imputation (df : List Entry) (hne : df ≠ []) :
    ∃ out, process_data df = some out ∧ out.length = df.length ∧
      ∀ (i : ℕ) (r : Entry), df[i]? = some r → ∃ rr, out[i]? = some rr ∧
        (r.gpa = none → rr.gpa = colMean (df.map (fun x => x.gpa))) ∧
        (∀ v, r.gpa = some v → rr.gpa = some v) ∧
        (r.gre_verbal = none → rr.gre_verbal = colMedian (df.map (fun x => x.gre_verbal))) ∧
        (∀ v, r.gre_verbal = some v → rr.gre_verbal = some v) ∧
        (r.gre_quant = none → rr.gre_quant = colMedian (df.map (fun x => x.gre_quant))) ∧
        (∀ v, r.gre_quant = some v → rr.gre_quant = some v) ∧
        (r.gre_writing = none → rr.gre_writing = colMedian (df.map (fun x => x.gre_writing))) ∧
        (∀ v, r.gre_writing = some v → rr.gre_writing = some v) := by
  refine ⟨_, process_data_eq df hne, by simp, ?_⟩
  intro i r hr
  refine ⟨_, by rw [List.getElem?_map, hr]; rfl, ?_, ?_, ?_, ?_, ?_, ?_, ?_, ?_⟩ <;>
    intro h <;> simp_all [fillOpt]

/-- Concrete rows used by the C5 witness: one row missing its gpa and quant
score, one fully populated row. -/
def c5Rows : List Entry :=
  [⟨"Yale University", "Political Science", "PhD", "F25", "Accepted",
    none, some 165, none, some 4, "raw1"⟩,
   ⟨"Yale University", "Political Science", "PhD", "F24", "Rejected",
    some 3, some 160, some 170, some 5, "raw2"⟩]

/-- Witness for C5 at a concrete two-row table. -/
theorem process_data_imputation_witness :
    ∃ out, process_data c5Rows = some out ∧ out.length = c5Rows.length ∧
      ∀ (i : ℕ) (r : Entry), c5Rows[i]? = some r → ∃ rr, out[i]? = some rr ∧
        (r.gpa = none → rr.gpa = colMean (c5Rows.map (fun x => x.gpa))) ∧
        (∀ v, r.gpa = some v → rr.gpa = some v) ∧
        (r.gre_verbal = none →
          rr.gre_verbal = colMedian (c5Rows.map (fun x => x.gre_verbal))) ∧
        (∀ v, r.gre_verbal = some v → rr.gre_verbal = some v) ∧
        (r.gre_quant = none → rr.gre_quant = colMedian (c5Rows.map (fun x => x.gre_quant))) ∧
        (∀ v, r.gre_quant = some v → rr.gre_quant = some v) ∧
        (r.gre_writing = none →
          rr.gre_writing = colMedian (c5Rows.map (fun x => x.gre_writing))) ∧
        (∀ v, r.gre_writing = some v → rr.gre_writing = some v) :=
  process_data_imputation c5Rows (by simp [c5Rows])

/-! ### C6: re-running normalization is not the identity on normalized
tables (corrected) -/

/-- A fully populated row whose decision is already canonical. -/
def cFull : Entry :=
  ⟨"Yale University", "Political Science", "PhD", "F25", "Accept",
   some 4, some 165, some 168, some 4, "raw"⟩

/-- Counterexample to C6 as stated: on the already-normalized, fully
populated one-row table `[cFull]` (decision `"Accept"`, no missing numeric
field), re-running `process_data` does not return the table unchanged — the
decision `"Accept"` is not a key of the mapping table, so it is re-mapped to
`"Unknown"`. -/
theorem process_data_not_idempotent_cex : process_data [cFull] ≠ some [cFull] := by
  rw [process_data_eq [cFull] (by simp)]
  intro h
  injection h with h1
  injection h1 with h2 h3
  exact absurd (congrArg Entry.decision h2) (by decide)

/-- A map that returns its input list unchanged fixes every member. -/
lemma map_eq_self_mem {α : Type} (f : α → α) : ∀ l : List α, l.map f = l →
    ∀ x ∈ l, f x = x := by
  intro l
  induction l with
  | nil => intro _ x hx; cases hx
  | cons a t ih =>
    intro h x hx
    injection h with h1 h2
    rcases List.mem_cons.mp hx with rfl | hx'
    · exact h1
    · exact ih h2 x hx'

/-- C6 amended: on a nonempty fully populated table re-running normalization
changes no numeric field (there is nothing to impute) — only the decision
column is re-mapped through the lookup table; the output equals the input
exactly when every row's decision is a fixed point of that re-mapping (such
as `"Other"`, its own key, or `"Unknown"`, which is unmapped and restored by
the `"Unknown"` default), while the other canonical labels are rewritten. -/
theorem process_data_idempotent_on_populated (df : List Entry) (hne : df ≠ [])
    (hfull : ∀ r ∈ df, r.gpa ≠ none ∧ r.gre_verbal ≠ none ∧ r.gre_quant ≠ none ∧
      r.gre_writing ≠ none) :
    process_data df =
      some (df.map (fun r => { r with decision := mapDecision r.decision })) ∧
    (process_data df = some df ↔ ∀ r ∈ df, mapDecision r.decision = r.decision) := by
  have key : process_data df =
      some (df.map (fun r => { r with decision := mapDecision r.decision })) := by
    rw [process_data_eq df hne]
    congr 1
    apply List.map_congr_left
    intro r hr
    obtain ⟨h1, h2, h3, h4⟩ := hfull r hr
    obtain ⟨v1, hv1⟩ := Option.ne_none_iff_exists'.mp h1
    obtain ⟨v2, hv2⟩ := Option.ne_none_iff_exists'.mp h2
    obtain ⟨v3, hv3⟩ := Option.ne_none_iff_exists'.mp h3
    obtain ⟨v4, hv4⟩ := Option.ne_none_iff_exists'.mp h4
    simp [fillOpt, hv1, hv2, hv3, hv4]
  refine ⟨key, ?_⟩
  rw [key]
  constructor
  · intro h
    have hmap : df.map (fun r => { r with decision := mapDecision r.decision }) = df := by
      injection h
    intro r hr
    exact congrArg Entry.decision (map_eq_self_mem _ df hmap r hr)
  · intro h
    congr 1
    have hid : df.map (fun r => { r with decision := mapDecision r.decision }) =
        df.map id :=
      List.map_congr_left (fun r hr => by
        rw [h r hr]
        rfl)
    rw [hid, List.map_id]

/-- Concrete rows for the C6 witness: fully populated, decisions `"Other"`
and `"Unknown"` — both fixed points of the re-mapping. -/
def cOtherRows : List Entry :=
  [⟨"Yale University", "Political Science", "PhD", "F25", "Other",
    some 4, some 165, some 168, some 4, "raw"⟩,
   ⟨"Yale University", "Political Science", "PhD", "F24", "Unknown",
    some 3, some 160, some 170, some 5, "raw2"⟩]

/-- Witness for the amended C6 at a concrete table. -/
theorem process_data_idempotent_on_populated_witness :
    process_data cOtherRows =
      some (cOtherRows.map (fun r => { r with decision := mapDecision r.decision })) ∧
    (process_data cOtherRows = some cOtherRows ↔
      ∀ r ∈ cOtherRows, mapDecision r.decision = r.decision) :=
  process_data_idempotent_on_populated cOtherRows (by simp [cOtherRows]) (by decide)

/-! ### C10: an all-missing column stays all-missing -/

/-- `Series.mean()` of an all-missing column is itself missing. -/
lemma colMean_none (xs : List (Option ℚ)) (h : ∀ x ∈ xs, x = none) : colMean xs = none := by
  have hnil : xs.filterMap id = [] := by
    rw [List.filterMap_eq_nil_iff]
    exact h
  simp [colMean, hnil]

/-- `Series.median()` of an all-missing column is itself missing. -/
lemma colMedian_none (xs : List (Option ℚ)) (h : ∀ x ∈ xs, x = none) :
    colMedian xs = none := by
  have hnil : xs.filterMap id = [] := by
    rw [List.filterMap_eq_nil_iff]
    exact h
  simp [colMedian, hnil]

/-- C10: if every row of the collected table misses a given numeric column,
normalization leaves that entire column missing (the imputation statistic over
an all-missing column is undefined), so `process_data` does not guarantee a
fully populated output. -/
theorem all_missing_column_stays_missing (df : List Entry) (hne : df ≠ []) :
    ∃ out, process_data df = some out ∧
      ((∀ r ∈ df, r.gpa = none) → ∀ rr ∈ out, rr.gpa = none) ∧
      ((∀ r ∈ df, r.gre_verbal = none) → ∀ rr ∈ out, rr.gre_verbal = none) ∧
      ((∀ r ∈ df, r.gre_quant = none) → ∀ rr ∈ out, rr.gre_quant = none) ∧
      ((∀ r ∈ df, r.gre_writing = none) → ∀ rr ∈ out, rr.gre_writing = none) := by
  refine ⟨_, process_data_eq df hne, ?_, ?_, ?_, ?_⟩
  · intro hall rr hrr
    rw [List.mem_map] at hrr
    obtain ⟨r, hr, rfl⟩ := hrr
    have hcol : colMean (df.map (fun x => x.gpa)) = none := by
      refine colMean_none _ ?_
      intro x hx
      rw [List.mem_map] at hx
      obtain ⟨y, hy, rfl⟩ := hx
      exact hall y hy
    simp [fillOpt, hall r hr, hcol]
  · intro hall rr hrr
    rw [List.mem_map] at hrr
    obtain ⟨r, hr, rfl⟩ := hrr
    have hcol : colMedian (df.map (fun x => x.gre_verbal)) = none := by
      refine colMedian_none _ ?_
      intro x hx
      rw [List.mem_map] at hx
      obtain ⟨y, hy, rfl⟩ := hx
      exact hall y hy
    simp [fillOpt, hall r hr, hcol]
  · intro hall rr hrr
    rw [List.mem_map] at hrr
    obtain ⟨r, hr, rfl⟩ := hrr
    have hcol : colMedian (df.map (fun x => x.gre_quant)) = none := by
      refine colMedian_none _ ?_
      intro x hx
      rw [List.mem_map] at hx
      obtain ⟨y, hy, rfl⟩ := hx
      exact hall y hy
    simp [fillOpt, hall r hr, hcol]
  · intro hall rr hrr
    rw [List.mem_map] at hrr
    obtain ⟨r, hr, rfl⟩ := hrr
    have hcol : colMedian (df.map (fun x => x.gre_writing)) = none := by
      refine colMedian_none _ ?_
      intro x hx
      rw [List.mem_map] at hx
      obtain ⟨y, hy, rfl⟩ := hx
      exact hall y hy
    simp [fillOpt, hall r hr, hcol]

/-- Concrete rows for the C10 witness: every row misses its gpa and verbal
score. -/
def c10Rows : List Entry :=
  [⟨"Yale University", "Political Science", "PhD", "F25", "Accepted",
    none, none, some 168, some 4, "raw1"⟩,
   ⟨"Yale University", "Political Science", "PhD", "F24", "Rejected",
    none, none, some 170, some 5, "raw2"⟩]

/-- Witness for C10 at a concrete table whose gpa and verbal columns are
entirely missing. -/
theorem all_missing_column_stays_missing_witness :
    ∃ out, process_data c10Rows = some out ∧
      ((∀ r ∈ c10Rows, r.gpa = none) → ∀ rr ∈ out, rr.gpa = none) ∧
      ((∀ r ∈ c10Rows, r.gre_verbal = none) → ∀ rr ∈ out, rr.gre_verbal = none) ∧
      ((∀ r ∈ c10Rows, r.gre_quant = none) → ∀ rr ∈ out, rr.gre_quant = none) ∧
      ((∀ r ∈ c10Rows, r.gre_writing = none) → ∀ rr ∈ out, rr.gre_writing = none) :=
  all_missing_column_stays_missing c10Rows (by simp [c10Rows])

/-! ### C7: the row filter of the Collector -/

/-- C7: a rendered table row contributes an entry iff it has at least 7 cells
and its stripped institution, program and degree texts contain, case
sensitively, the three fixed target substrings; every other row yields
nothing. The second conjunct pins down `strContains` as genuine substring
containment. -/
theorem scrapeRow_keeps_iff :
    (∀ cells : List String,
      (∃ en, scrapeRow cells = some en) ↔
        (7 ≤ cells.length ∧
         strContains (pstrip (cells.getD 0 "")) "Yale" = true ∧
         strContains (pstrip (cells.getD 1 "")) "Political Science" = true ∧
         strContains (pstrip (cells.getD 2 "")) "PhD" = true)) ∧
    (∀ hay needle : String, strContains hay needle = true ↔
      ∃ l t, hay.data = l ++ needle.data ++ t) := by
  constructor
  · intro cells
    constructor
    · rintro ⟨en, hen⟩
      simp only [scrapeRow] at hen
      split at hen
      · cases hen
      · split at hen
        · rename_i hlen hcond
          simp only [Bool.and_eq_true] at hcond
          exact ⟨by omega, hcond.1.1, hcond.1.2, hcond.2⟩
        · cases hen
    · rintro ⟨h7, hY, hP, hD⟩
      have hne : scrapeRow cells ≠ none := by
        simp only [scrapeRow]
        rw [if_neg (by omega), if_pos (by rw [hY, hP, hD]; rfl)]
        simp
      exact Option.ne_none_iff_exists'.mp hne
  · intro hay needle
    exact containsSub_iff needle.data hay.data

/-! ### C8: the Analyzer's case-insensitive substring filter -/

/-- C8: the Analyzer keeps exactly the rows whose `uni_name` contains
`'Yale'` and whose `major` contains `'Political Science'`, both as
case-insensitive substring (not exact) matches: membership in the filtered
table is equivalent to membership in the input plus the two substring tests,
and the test itself holds exactly when the lowercased needle occurs inside
the lowercased cell (a missing cell never matches). -/
theorem analyze_yale_polisci_membership :
    (∀ (df : List ARow) (r : ARow),
      r ∈ analyze_yale_polisci df ↔
        r ∈ df ∧ strContainsCI r.uni_name "Yale" = true ∧
          strContainsCI r.major "Political Science" = true) ∧
    (∀ (s needle : String), strContainsCI (some s) needle = true ↔
      ∃ l t, toLowerList s.data = l ++ toLowerList needle.data ++ t) ∧
    (∀ needle : String, strContainsCI none needle = false) := by
  refine ⟨?_, ?_, fun _ => rfl⟩
  · intro df r
    simp [analyze_yale_polisci, List.mem_filter, and_assoc]
  · intro s needle
    exact containsSub_iff (toLowerList needle.data) (toLowerList s.data)

/-! ### C3: exact, independently nullable extraction in `parse_stats` -/

/-- C3: when the stats text contains a recognizable `GPA: D.DD` substring at
the first occurrence of the (caseless) label, the parser extracts exactly
that decimal as `gpa` (and likewise `GRE Verbal: DDD` yields exactly that
integer); when a field's label does not occur, that field is `None` — never a
default of zero — each of the four fields independently of the others. -/
theorem parse_stats_fields :
    (∀ (pre post frac : List Char) (d0 : Char),
      isDigitChar d0 = true → frac ≠ [] →
      (∀ c ∈ frac, isDigitChar c = true) →
      (∀ c, post.head? = some c → isDigitChar c = false) →
      (∀ n, n < pre.length →
        matchLabel gpaLabel
          ((pre ++ (gpaLabel ++ (':' :: ' ' :: d0 :: '.' :: (frac ++ post)))).drop n) = none) →
      (parse_stats ⟨pre ++ (gpaLabel ++ (':' :: ' ' :: d0 :: '.' :: (frac ++ post)))⟩).gpa =
        some (decVal d0 frac)) ∧
    (∀ (pre post ds : List Char),
      ds ≠ [] →
      (∀ c ∈ ds, isDigitChar c = true) →
      (∀ c, post.head? = some c → isDigitChar c = false) →
      (∀ n, n < pre.length →
        matchLabel greVerbalLabel
          ((pre ++ (greVerbalLabel ++ (':' :: ' ' :: (ds ++ post)))).drop n) = none) →
      (parse_stats ⟨pre ++ (greVerbalLabel ++ (':' :: ' ' :: (ds ++ post)))⟩).gre_verbal =
        some ((digitsVal ds : ℕ) : ℤ)) ∧
    (∀ s : String, labelOccursIn gpaLabel s.data = false → (parse_stats s).gpa = none) ∧
    (∀ s : String, labelOccursIn greVerbalLabel s.data = false →
      (parse_stats s).gre_verbal = none) ∧
    (∀ s : String, labelOccursIn greQuantLabel s.data = false →
      (parse_stats s).gre_quant = none) ∧
    (∀ s : String, labelOccursIn greWritingLabel s.data = false →
      (parse_stats s).gre_writing = none) := by
  refine ⟨?_, ?_, ?_, ?_, ?_, ?_⟩
  · intro pre post frac d0 hd hf hfall hpost hfirst
    have hsearch : searchWith gpaLabel matchDecCap
        (pre ++ (gpaLabel ++ (':' :: ' ' :: d0 :: '.' :: (frac ++ post)))) =
        some (d0, frac) := by
      rw [searchWith_skip gpaLabel matchDecCap pre _
        (fun n hn => by
          have hh := hfirst n hn
          rwa [List.drop_append_of_le_length (le_of_lt hn)] at hh)]
      exact searchWith_at_label gpaLabel (by decide) matchDecCap _ _
        (matchDecCap_exact d0 frac post hd hf hfall hpost)
    show (searchWith gpaLabel matchDecCap
        (pre ++ (gpaLabel ++ (':' :: ' ' :: d0 :: '.' :: (frac ++ post))))).map
        (fun p => decVal p.1 p.2) = some (decVal d0 frac)
    rw [hsearch]
    rfl
  · intro pre post ds hne hall hpost hfirst
    have hsearch : searchWith greVerbalLabel matchIntCap
        (pre ++ (greVerbalLabel ++ (':' :: ' ' :: (ds ++ post)))) = some ds := by
      rw [searchWith_skip greVerbalLabel matchIntCap pre _
        (fun n hn => by
          have hh := hfirst n hn
          rwa [List.drop_append_of_le_length (le_of_lt hn)] at hh)]
      exact searchWith_at_label greVerbalLabel (by decide) matchIntCap _ _
        (matchIntCap_exact ds post hne hall hpost)
    show (searchWith greVerbalLabel matchIntCap
        (pre ++ (greVerbalLabel ++ (':' :: ' ' :: (ds ++ post))))).map
        (fun ds => ((digitsVal ds : ℕ) : ℤ)) = some ((digitsVal ds : ℕ) : ℤ)
    rw [hsearch]
    rfl
  · intro s h
    show (searchWith gpaLabel matchDecCap s.data).map (fun p => decVal p.1 p.2) = none
    rw [searchWith_none_of_not_occurs gpaLabel matchDecCap s.data h]
    rfl
  · intro s h
    show (searchWith greVerbalLabel matchIntCap s.data).map
      (fun ds => ((digitsVal ds : ℕ) : ℤ)) = none
    rw [searchWith_none_of_not_occurs greVerbalLabel matchIntCap s.data h]
    rfl
  · intro s h
    show (searchWith greQuantLabel matchIntCap s.data).map
      (fun ds => ((digitsVal ds : ℕ) : ℤ)) = none
    rw [searchWith_none_of_not_occurs greQuantLabel matchIntCap s.data h]
    rfl
  · intro s h
    show (searchWith greWritingLabel matchDecCap s.data).map (fun p => decVal p.1 p.2) = none
    rw [searchWith_none_of_not_occurs greWritingLabel matchDecCap s.data h]
    rfl

/-- Witness for C3: exact extraction on `"GPA: 3.80"`-shaped and
`"GRE Verbal: 165"`-shaped texts, and nulls (not zeros) when a label is
absent — independently per field. -/
theorem parse_stats_fields_witness :
    (parse_stats ⟨[] ++ (gpaLabel ++ (':' :: ' ' :: '3' :: '.' :: (['8', '0'] ++ [])))⟩).gpa =
      some (decVal '3' ['8', '0']) ∧
    (parse_stats ⟨[] ++ (greVerbalLabel ++ (':' :: ' ' ::
      (['1', '6', '5'] ++ [])))⟩).gre_verbal = some ((digitsVal ['1', '6', '5'] : ℕ) : ℤ) ∧
    (parse_stats "GRE Verbal: 165").gpa = none ∧
    (parse_stats "GPA: 3.80").gre_verbal = none ∧
    (parse_stats "GPA: 3.80").gre_quant = none ∧
    (parse_stats "GPA: 3.80").gre_writing = none := by
  refine ⟨?_, ?_, ?_, ?_, ?_, ?_⟩
  · exact parse_stats_fields.1 [] [] ['8', '0'] '3' (by decide) (by decide) (by decide)
      (fun c hc => by simp at hc) (fun n hn => absurd hn (Nat.not_lt_zero n))
  · exact parse_stats_fields.2.1 [] [] ['1', '6', '5'] (by decide) (by decide)
      (fun c hc => by simp at hc) (fun n hn => absurd hn (Nat.not_lt_zero n))
  · exact parse_stats_fields.2.2.1 "GRE Verbal: 165" (by decide)
  · exact parse_stats_fields.2.2.2.1 "GPA: 3.80" (by decide)
  · exact parse_stats_fields.2.2.2.2.1 "GPA: 3.80" (by decide)
  · exact parse_stats_fields.2.2.2.2.2 "GPA: 3.80" (by decide)

/-! ### C2: end-to-end two-page scenario -/

/-- The stats cell of the C2 scenario. -/
def yaleStats : String :=
  "GPA: 3.80, GRE Verbal: 165, GRE Quantitative: 168, GRE Analytical Writing: 4.50"

/-- The entry `scrape_gradcafe_page` builds from the C2 scenario's row, with
the given (already stripped) season text. -/
def yEntry (sea : String) : Entry :=
  { institution := "Yale University", program := "Political Science", degree := "PhD",
    season := sea, decision := "Accepted",
    gpa := (parse_stats yaleStats).gpa,
    gre_verbal := (parse_stats yaleStats).gre_verbal.map intToRat,
    gre_quant := (parse_stats yaleStats).gre_quant.map intToRat,
    gre_writing := (parse_stats yaleStats).gre_writing,
    stats_raw := yaleStats }

/-- The row `process_data` makes of the C2 scenario's single entry. -/
def yProcessed (sea : String) : Entry :=
  { institution := "Yale University", program := "Political Science", degree := "PhD",
    season := sea, decision := mapDecision "Accepted",
    gpa := fillOpt (parse_stats yaleStats).gpa
      (colMean (List.map (fun x => x.gpa) [yEntry sea])),
    gre_verbal := fillOpt ((parse_stats yaleStats).gre_verbal.map intToRat)
      (colMedian (List.map (fun x => x.gre_verbal) [yEntry sea])),
    gre_quant := fillOpt ((parse_stats yaleStats).gre_quant.map intToRat)
      (colMedian (List.map (fun x => x.gre_quant) [yEntry sea])),
    gre_writing := fillOpt (parse_stats yaleStats).gre_writing
      (colMedian (List.map (fun x => x.gre_writing) [yEntry sea])),
    stats_raw := yaleStats }

/-- C2: with page 1 holding exactly one data row — at least 7 cells,
institution `"Yale University"`, program `"Political Science"`, degree
`"PhD"`, decision `"Accepted"` and the fixed stats cell — and page 2 yielding
zero rows, the Collector pipeline (scrape all pages from the configured start
page 1 to end bound 170, then `process_data`) produces a one-row table with
decision `"Accept"`, gpa `3.80`, verbal `165`, quant `168`, writing `4.50`,
and requests no page beyond 2. -/
theorem end_to_end_two_pages (pc : ℕ → PageContent) (hdr : List String)
    (season c5 : String) (extra : List String)
    (hp1 : pc 1 = PageContent.table [hdr,
      ["Yale University", "Political Science", "PhD", season, "Accepted", c5, yaleStats]
        ++ extra])
    (hp2 : scrape_gradcafe_page (pc 2) = []) :
    ∃ row : Entry,
      process_data (scrape_all_pages (fun p => scrape_gradcafe_page (pc p)) 1 170) =
        some [row] ∧
      row.institution = "Yale University" ∧ row.program = "Political Science" ∧
      row.degree = "PhD" ∧ row.decision = "Accept" ∧
      row.gpa = some (19 / 5) ∧ row.gre_verbal = some 165 ∧
      row.gre_quant = some 168 ∧ row.gre_writing = some (9 / 2) ∧
      requestedPages (fun p => scrape_gradcafe_page (pc p)) 1 170 = [1, 2] := by
  have hlen : ¬ ((["Yale University", "Political Science", "PhD", season, "Accepted", c5,
      yaleStats] ++ extra).length < 7) := by
    simp only [List.length_append, List.length_cons, List.length_nil]
    omega
  have h6 : 6 < (["Yale University", "Political Science", "PhD", season, "Accepted", c5,
      yaleStats] ++ extra).length := by
    simp only [List.length_append, List.length_cons, List.length_nil]
    omega
  have hsr : scrapeRow
      (["Yale University", "Political Science", "PhD", season, "Accepted", c5, yaleStats]
        ++ extra) = some (yEntry (pstrip season)) := by
    simp only [scrapeRow]
    rw [if_neg hlen, if_pos h6]
    rw [show (["Yale University", "Political Science", "PhD", season, "Accepted", c5,
      yaleStats] ++ extra).getD 0 "" = "Yale University" from rfl]
    rw [show (["Yale University", "Political Science", "PhD", season, "Accepted", c5,
      yaleStats] ++ extra).getD 1 "" = "Political Science" from rfl]
    rw [show (["Yale University", "Political Science", "PhD", season, "Accepted", c5,
      yaleStats] ++ extra).getD 2 "" = "PhD" from rfl]
    rw [show (["Yale University", "Political Science", "PhD", season, "Accepted", c5,
      yaleStats] ++ extra).getD 3 "" = season from rfl]
    rw [show (["Yale University", "Political Science", "PhD", season, "Accepted", c5,
      yaleStats] ++ extra).getD 4 "" = "Accepted" from rfl]
    rw [show (["Yale University", "Political Science", "PhD", season, "Accepted", c5,
      yaleStats] ++ extra).getD 6 "" = yaleStats from rfl]
    rw [if_pos (by decide : (strContains (pstrip "Yale University") "Yale" &&
      strContains (pstrip "Political Science") "Political Science" &&
      strContains (pstrip "PhD") "PhD") = true)]
    rfl
  simp only [List.cons_append, List.nil_append] at hsr
  have hf1 : scrape_gradcafe_page (pc 1) = [yEntry (pstrip season)] := by
    rw [hp1]
    simp [scrape_gradcafe_page, hsr]
  have hstop := scrape_all_pages_spec (fun p => scrape_gradcafe_page (pc p)) 1 170 2
    (by omega) (by omega)
    (fun p h1 h2 => by
      have hp : p = 1 := by omega
      subst hp
      show scrape_gradcafe_page (pc 1) ≠ []
      rw [hf1]
      simp)
    hp2
  have hres : scrape_all_pages (fun p => scrape_gradcafe_page (pc p)) 1 170 =
      [yEntry (pstrip season)] := by
    rw [hstop.1, show (2 : ℕ) - 1 = 1 from rfl, List.range'_one]
    simp [hf1]
  have hreq : requestedPages (fun p => scrape_gradcafe_page (pc p)) 1 170 = [1, 2] := by
    rw [hstop.2]
    rfl
  have hgpa : (parse_stats yaleStats).gpa = some (19 / 5) := by
    have h1 : searchWith gpaLabel matchDecCap yaleStats.data = some ('3', ['8', '0']) := by
      decide
    show (searchWith gpaLabel matchDecCap yaleStats.data).map
      (fun p => decVal p.1 p.2) = some (19 / 5)
    rw [h1]
    show some (decVal '3' ['8', '0']) = some (19 / 5)
    rw [show decVal '3' ['8', '0'] = ((3 : ℕ) : ℚ) + ((80 : ℕ) : ℚ) / (10 : ℚ) ^ 2 from rfl]
    norm_num
  have hverb : (parse_stats yaleStats).gre_verbal = some 165 := by
    have h1 : searchWith greVerbalLabel matchIntCap yaleStats.data =
        some ['1', '6', '5'] := by decide
    show (searchWith greVerbalLabel matchIntCap yaleStats.data).map
      (fun ds => ((digitsVal ds : ℕ) : ℤ)) = some 165
    rw [h1]
    rfl
  have hquant : (parse_stats yaleStats).gre_quant = some 168 := by
    have h1 : searchWith greQuantLabel matchIntCap yaleStats.data =
        some ['1', '6', '8'] := by decide
    show (searchWith greQuantLabel matchIntCap yaleStats.data).map
      (fun ds => ((digitsVal ds : ℕ) : ℤ)) = some 168
    rw [h1]
    rfl
  have hwrit : (parse_stats yaleStats).gre_writing = some (9 / 2) := by
    have h1 : searchWith greWritingLabel matchDecCap yaleStats.data =
        some ('4', ['5', '0']) := by decide
    show (searchWith greWritingLabel matchDecCap yaleStats.data).map
      (fun p => decVal p.1 p.2) = some (9 / 2)
    rw [h1]
    show some (decVal '4' ['5', '0']) = some (9 / 2)
    rw [show decVal '4' ['5', '0'] = ((4 : ℕ) : ℚ) + ((50 : ℕ) : ℚ) / (10 : ℚ) ^ 2 from rfl]
    norm_num
  have hproc := process_data_eq [yEntry (pstrip season)] (by simp)
  refine ⟨yProcessed (pstrip season), ?_, rfl, rfl, rfl, rfl, ?_, ?_, ?_, ?_, hreq⟩
  · rw [hres, hproc]
    rfl
  · show fillOpt (parse_stats yaleStats).gpa
      (colMean (List.map (fun x => x.gpa) [yEntry (pstrip season)])) = some (19 / 5)
    rw [hgpa]
    rfl
  · show fillOpt ((parse_stats yaleStats).gre_verbal.map intToRat)
      (colMedian (List.map (fun x => x.gre_verbal) [yEntry (pstrip season)])) = some 165
    rw [hverb]
    show some (intToRat 165) = some 165
    norm_num [intToRat]
  · show fillOpt ((parse_stats yaleStats).gre_quant.map intToRat)
      (colMedian (List.map (fun x => x.gre_quant) [yEntry (pstrip season)])) = some 168
    rw [hquant]
    show some (intToRat 168) = some 168
    norm_num [intToRat]
  · show fillOpt (parse_stats yaleStats).gre_writing
      (colMedian (List.map (fun x => x.gre_writing) [yEntry (pstrip season)])) = some (9 / 2)
    rw [hwrit]
    rfl

/-- Witness for C2 at a fully concrete pair of pages. -/
theorem end_to_end_two_pages_witness :
    ∃ row : Entry,
      process_data (scrape_all_pages (fun p => scrape_gradcafe_page
        ((fun q => if q = 1 then PageContent.table [[],
          ["Yale University", "Political Science", "PhD", "Fall 2025", "Accepted", "",
            yaleStats] ++ []] else PageContent.table [[]]) p)) 1 170) = some [row] ∧
      row.institution = "Yale University" ∧ row.program = "Political Science" ∧
      row.degree = "PhD" ∧ row.decision = "Accept" ∧
      row.gpa = some (19 / 5) ∧ row.gre_verbal = some 165 ∧
      row.gre_quant = some 168 ∧ row.gre_writing = some (9 / 2) ∧
      requestedPages (fun p => scrape_gradcafe_page
        ((fun q => if q = 1 then PageContent.table [[],
          ["Yale University", "Political Science", "PhD", "Fall 2025", "Accepted", "",
            yaleStats] ++ []] else PageContent.table [[]]) p)) 1 170 = [1, 2] :=
  end_to_end_two_pages
    (fun q => if q = 1 then PageContent.table [[],
      ["Yale University", "Political Science", "PhD", "Fall 2025", "Accepted", "",
        yaleStats] ++ []] else PageContent.table [[]])
    [] "Fall 2025" "" [] (by simp) (by rfl)

